import Mathlib

/-!
Verification of the ai-chat conversation exporter.

The definitions below are a shallow embedding of the two source files
`scripts/storage-manager.js` (conversation store plus the DOM extraction
content script bundled in the same file) and `history/history.js` (import
validation).  JavaScript numbers that the code only ever uses as epoch
milliseconds or counts are modelled as `Nat`; strings as Lean `String`
or `List Char`; absent object fields as `Option`; thrown exceptions as
`Except`.  The asynchronous key-value backend is modelled by threading the
stored conversation list explicitly through each operation.
-/

namespace AiChat

/-- Author role of a chat message (`'User'` / `'Assistant'` in the source). -/
inductive Role where
  | User
  | Assistant
deriving DecidableEq, Repr

/-- A structured message `{role, content}` as carried inside exported data. -/
structure StoredMessage where
  role : String
  content : String
deriving DecidableEq, Repr

/-- A stored conversation record.  `saveConversation` creates records with the
eleven fields `id .. messageCount`; `messages` and `modifiedAt` model object
keys that only exist on a record when some later operation added them, so
`none` means "key absent". -/
structure Conversation where
  id : String
  title : String
  content : String
  provider : String
  timestamp : Nat
  url : String
  conversationId : String
  tags : List String
  isFavorite : Bool
  notes : String
  messageCount : Nat
  messages : Option (List StoredMessage) := none
  modifiedAt : Option Nat := none
deriving DecidableEq, Repr

/-- The caller-supplied input object of `saveConversation` /
`updateConversation` / `importData`: every field may be absent. -/
structure ConversationData where
  id : Option String := none
  title : Option String := none
  content : Option String := none
  provider : Option String := none
  timestamp : Option Nat := none
  url : Option String := none
  conversationId : Option String := none
  tags : Option (List String) := none
  isFavorite : Option Bool := none
  notes : Option String := none
  messageCount : Option Nat := none
  messages : Option (List StoredMessage) := none
  modifiedAt : Option Nat := none
deriving DecidableEq, Repr

/-- JS `x || dflt` for an optional string field: an absent field and the empty
string are falsy, every other string is kept. -/
def jsOrStr (o : Option String) (dflt : String) : String :=
  match o with
  | none => dflt
  | some s => if s = "" then dflt else s

/-- The record literal built by `saveConversation` (storage-manager.js 53-65):
fresh `id`, `timestamp := Date.now()`, defaults for missing fields, the `url`
default being `window.location.href` (parameter `loc`).  Every input field
outside the eleven listed ones is ignored. -/
def mkConversation (id : String) (ts : Nat) (loc : String) (d : ConversationData) :
    Conversation :=
  { id := id
    title := jsOrStr d.title "Untitled Conversation"
    content := jsOrStr d.content ""
    provider := jsOrStr d.provider "unknown"
    timestamp := ts
    url := jsOrStr d.url loc
    conversationId := jsOrStr d.conversationId ""
    tags := d.tags.getD []
    isFavorite := d.isFavorite.getD false
    notes := jsOrStr d.notes ""
    messageCount := d.messageCount.getD 0 }

/-! ### JSON length model

`checkAndCleanupStorage` measures `JSON.stringify(conversations).length`.
We model the UTF-16 length of that string exactly for the record shapes the
store produces (plain object key order does not affect the length). -/

/-- UTF-16 length contributed by one character inside a JSON string literal:
`"` and `\` are escaped to two units, control characters to the two-unit
short escapes or a six-unit `\uXXXX`, astral characters occupy two units. -/
def jsonEscLen (c : Char) : Nat :=
  if c = '"' ∨ c = '\\' then 2
  else if c.toNat < 32 then
    if c = '\n' ∨ c = '\t' ∨ c = '\r' ∨ c.toNat = 8 ∨ c.toNat = 12 then 2 else 6
  else if 65536 ≤ c.toNat then 2 else 1

/-- Length of `JSON.stringify` of a string (quotes plus escaped body). -/
def jsonStrLen (s : String) : Nat := 2 + (s.toList.map jsonEscLen).sum

/-- Length of the decimal rendering of a natural number. -/
def natLen (n : Nat) : Nat := (Nat.repr n).length

/-- Length of `JSON.stringify` of an array of strings. -/
def jsonStrListLen (l : List String) : Nat :=
  match l with
  | [] => 2
  | _ => 2 + (l.map jsonStrLen).sum + (l.length - 1)

/-- Length of `JSON.stringify` of one `{role, content}` message object. -/
def jsonMsgLen (m : StoredMessage) : Nat :=
  2 + 7 + jsonStrLen m.role + 1 + 10 + jsonStrLen m.content

/-- Length of `JSON.stringify` of an array of message objects. -/
def jsonMsgListLen (l : List StoredMessage) : Nat :=
  match l with
  | [] => 2
  | _ => 2 + (l.map jsonMsgLen).sum + (l.length - 1)

/-- Length of `JSON.stringify` of one stored conversation record. -/
def jsonConvLen (c : Conversation) : Nat :=
  2
  + (5 + jsonStrLen c.id)
  + (8 + jsonStrLen c.title)
  + (10 + jsonStrLen c.content)
  + (11 + jsonStrLen c.provider)
  + (12 + natLen c.timestamp)
  + (6 + jsonStrLen c.url)
  + (17 + jsonStrLen c.conversationId)
  + (7 + jsonStrListLen c.tags)
  + (13 + (if c.isFavorite then 4 else 5))
  + (8 + jsonStrLen c.notes)
  + (15 + natLen c.messageCount)
  + 10
  + (match c.messages with
     | none => 0
     | some ms => 1 + 11 + jsonMsgListLen ms)
  + (match c.modifiedAt with
     | none => 0
     | some m => 1 + 13 + natLen m)

/-- Length of `JSON.stringify` of the whole conversation list. -/
def jsonConvListLen (l : List Conversation) : Nat :=
  match l with
  | [] => 2
  | _ => 2 + (l.map jsonConvLen).sum + (l.length - 1)

/-- `MAX_STORAGE_SIZE = 5 * 1024 * 1024` (storage-manager.js line 9). -/
def MAX_STORAGE_SIZE : Nat := 5 * 1024 * 1024

/-- The `usagePercent > 90` test of `checkAndCleanupStorage`, written in exact
rational arithmetic: `(size / MAX) * 100 > 90  ↔  100 * size > 90 * MAX`. -/
def storageExceeds (l : List Conversation) : Bool :=
  90 * MAX_STORAGE_SIZE < 100 * jsonConvListLen l

/-- The comparator `(a, b) => b.timestamp - a.timestamp`: `a` may precede `b`
iff `b.timestamp ≤ a.timestamp`. -/
def byTsDesc (a b : Conversation) : Prop := b.timestamp ≤ a.timestamp

instance : DecidableRel byTsDesc := fun _ _ => Nat.decLe _ _

instance : IsTotal Conversation byTsDesc := ⟨fun a b => le_total b.timestamp a.timestamp⟩

instance : IsTrans Conversation byTsDesc := ⟨fun _ _ _ h1 h2 => le_trans h2 h1⟩

/-- `conversations.sort((a, b) => b.timestamp - a.timestamp)` modelled as a
stable sort by descending timestamp. -/
def sortByTimestampDesc (l : List Conversation) : List Conversation :=
  List.insertionSort byTsDesc l

/-- Return value of `checkAndCleanupStorage` (storage-manager.js 241-264):
when usage exceeds 90% of the ceiling, sort by timestamp descending, and if
non-favorites exist, drop the oldest `ceil(10%)` of them (by id). -/
def checkAndCleanupStorage (conversations : List Conversation) : List Conversation :=
  if storageExceeds conversations then
    let sorted := sortByTimestampDesc conversations
    let nonFavorites := sorted.filter (fun c => !c.isFavorite)
    if 0 < nonFavorites.length then
      let toRemove := (nonFavorites.length + 9) / 10
      let toDelete := (nonFavorites.drop (nonFavorites.length - toRemove)).map (fun c => c.id)
      sorted.filter (fun c => !toDelete.contains c.id)
    else sorted
  else conversations

/-- State of the `conversations` array after `checkAndCleanupStorage` returns:
`conversations.sort(...)` mutated it in place, but `filter` allocates a new
array, so no element was removed from the argument.  `saveConversation`
persists this array, not the function's return value. -/
def checkAndCleanupSideEffect (conversations : List Conversation) : List Conversation :=
  if storageExceeds conversations then sortByTimestampDesc conversations else conversations

/-- `saveConversation` (storage-manager.js 48-80): build the record, push it,
run `checkAndCleanupStorage` (whose return value the source discards), then
persist.  Returns the record together with the persisted list. -/
def saveConversation (store : List Conversation) (d : ConversationData)
    (id : String) (ts : Nat) (loc : String) : Conversation × List Conversation :=
  let conversation := mkConversation id ts loc d
  let pushed := store ++ [conversation]
  (conversation, checkAndCleanupSideEffect pushed)

/-- `getConversation` (storage-manager.js 40-43): first record with this id. -/
def getConversation (store : List Conversation) (id : String) : Option Conversation :=
  store.find? (fun c => c.id == id)

/-- The spread merge `{...existing, ...updates, id, modifiedAt: Date.now()}`
of `updateConversation`: fields present on `updates` win, `id` is re-pinned,
`modifiedAt` is stamped. -/
def mergeConversation (c : Conversation) (u : ConversationData) (id : String)
    (now : Nat) : Conversation :=
  { id := id
    title := u.title.getD c.title
    content := u.content.getD c.content
    provider := u.provider.getD c.provider
    timestamp := u.timestamp.getD c.timestamp
    url := u.url.getD c.url
    conversationId := u.conversationId.getD c.conversationId
    tags := u.tags.getD c.tags
    isFavorite := u.isFavorite.getD c.isFavorite
    notes := u.notes.getD c.notes
    messageCount := u.messageCount.getD c.messageCount
    messages := match u.messages with
      | some m => some m
      | none => c.messages
    modifiedAt := some now }

/-- Replace the first record whose id matches (the `findIndex` semantics of
`updateConversation`); `none` when no record matches. -/
def updateFirst (l : List Conversation) (id : String) (u : ConversationData)
    (now : Nat) : Option (List Conversation × Conversation) :=
  match l with
  | [] => none
  | c :: rest =>
    if c.id = id then
      let merged := mergeConversation c u id now
      some (merged :: rest, merged)
    else
      (updateFirst rest id u now).map (fun p => (c :: p.1, p.2))

/-- `updateConversation` (storage-manager.js 85-109): throws
`Conversation ${id} not found` when the id is absent (before any write),
otherwise persists the merged list and returns the merged record. -/
def updateConversation (store : List Conversation) (id : String)
    (u : ConversationData) (now : Nat) :
    Except String (List Conversation × Conversation) :=
  match updateFirst store id u now with
  | none => Except.error ("Conversation " ++ id ++ " not found")
  | some p => Except.ok p

/-- The backend contents after an `updateConversation` call: unchanged when
the call threw (the throw happens before `chrome.storage.local.set`). -/
def updateConversationStoreAfter (store : List Conversation) (id : String)
    (u : ConversationData) (now : Nat) : List Conversation :=
  match updateConversation store id u now with
  | Except.ok p => p.1
  | Except.error _ => store

/-- `findDuplicate` (storage-manager.js 150-155): falsy conversationId never
matches; otherwise first record with the same platform conversation id. -/
def findDuplicate (store : List Conversation) (conversationId : Option String) :
    Option Conversation :=
  match conversationId with
  | none => none
  | some cid =>
    if cid = "" then none
    else store.find? (fun c => c.conversationId == cid)

/-! ### Search -/

/-- The optional `filters` argument of `searchConversations`. -/
structure SearchFilters where
  provider : Option String := none
  isFavorite : Option Bool := none
  startDate : Option Nat := none
  endDate : Option Nat := none
  tags : Option (List String) := none
deriving DecidableEq, Repr

/-- Boolean test that `needle` occurs as a contiguous segment at the front of
`hay` (helper for substring search). -/
def segAtFront : List Char → List Char → Bool
  | [], _ => true
  | _ :: _, [] => false
  | a :: as, b :: bs => a == b && segAtFront as bs

/-- Boolean test that `needle` occurs as a contiguous segment of `hay`
(the embedding of `String.prototype.includes`). -/
def listContainsSeg (needle : List Char) : List Char → Bool
  | [] => segAtFront needle []
  | c :: rest => segAtFront needle (c :: rest) || listContainsSeg needle rest

/-- `hay.includes(needle)`. -/
def strIncludes (hay needle : String) : Bool := listContainsSeg needle.toList hay.toList

/-- The keyword predicate of `searchConversations` (storage-manager.js
168-173): lowercase substring match against title, content, notes or any tag. -/
def matchesQuery (lowerQuery : String) (c : Conversation) : Bool :=
  strIncludes c.title.toLower lowerQuery ||
  strIncludes c.content.toLower lowerQuery ||
  strIncludes c.notes.toLower lowerQuery ||
  c.tags.any (fun t => strIncludes t.toLower lowerQuery)

/-- `searchConversations` (storage-manager.js 160-205).  Each guard mirrors
the JS truthiness test on the corresponding filter field (`0` and `""` are
falsy, `isFavorite !== undefined` keeps `false`). -/
def searchConversations (store : List Conversation) (query : String)
    (filters : SearchFilters) : List Conversation :=
  let r0 := if query ≠ "" ∧ query.trim ≠ "" then
      store.filter (matchesQuery query.toLower)
    else store
  let r1 := match filters.provider with
    | some p => if p ≠ "" then r0.filter (fun c => c.provider == p) else r0
    | none => r0
  let r2 := match filters.isFavorite with
    | some b => r1.filter (fun c => c.isFavorite == b)
    | none => r1
  let r3 := match filters.startDate with
    | some s => if s ≠ 0 then r2.filter (fun c => s ≤ c.timestamp) else r2
    | none => r2
  let r4 := match filters.endDate with
    | some e => if e ≠ 0 then r3.filter (fun c => c.timestamp ≤ e) else r3
    | none => r3
  let r5 := match filters.tags with
    | some ts =>
      if 0 < ts.length then r4.filter (fun c => ts.any (fun t => c.tags.contains t))
      else r4
    | none => r4
  sortByTimestampDesc r5

/-- `{}`: no filters supplied. -/
def noFilters : SearchFilters := {}

/-! ### Import -/

inductive MergeStrategy where
  | skip
  | update
deriving DecidableEq, Repr

/-- The accumulator object of `importData`. -/
structure ImportResults where
  imported : Nat
  skipped : Nat
  updated : Nat
  errors : List (String × String)
deriving DecidableEq, Repr

/-- The per-record loop of `importData` (storage-manager.js 314-340): check
for a duplicate by platform conversation id against the current store, then
skip / update / save; the store is re-read after every write, modelled by
threading it through the recursion.  `gen` supplies the fresh ids that
`generateId()` would produce. -/
def importLoop (records : List ConversationData) (store : List Conversation)
    (strategy : MergeStrategy) (gen : Nat → String) (k : Nat) (now : Nat)
    (loc : String) : ImportResults × List Conversation :=
  match records with
  | [] => (⟨0, 0, 0, []⟩, store)
  | d :: rest =>
    match findDuplicate store d.conversationId, strategy with
    | some _, MergeStrategy.skip =>
      let r := importLoop rest store strategy gen k now loc
      ({ r.1 with skipped := r.1.skipped + 1 }, r.2)
    | some dup, MergeStrategy.update =>
      match updateConversation store dup.id d now with
      | Except.ok p =>
        let r := importLoop rest p.1 strategy gen k now loc
        ({ r.1 with updated := r.1.updated + 1 }, r.2)
      | Except.error e =>
        let r := importLoop rest store strategy gen k now loc
        ({ r.1 with errors := (jsOrStr d.title "", e) :: r.1.errors }, r.2)
    | none, _ =>
      let s := saveConversation store d (gen k) now loc
      let r := importLoop rest s.2 strategy gen (k + 1) now loc
      ({ r.1 with imported := r.1.imported + 1 }, r.2)

/-- The `conversations` field of an import bundle: absent, present but not an
array, or an array of records. -/
inductive ConvsField where
  | absent
  | notArray
  | arr (records : List ConversationData)
deriving DecidableEq, Repr

/-- A parsed import bundle as `handleImport` sees it. -/
structure ImportBundle where
  version : Option String := none
  conversations : ConvsField := ConvsField.absent
deriving DecidableEq, Repr

/-- JS truthiness of the bundle's `version` field (`!data.version`): absent
or empty is falsy. -/
def versionTruthy : Option String → Bool
  | none => false
  | some s => !(s == "")

/-- `importData` (storage-manager.js 300-347): rejects a bundle whose
`conversations` field is missing or not an array, otherwise runs the
per-record loop. -/
def importData (store : List Conversation) (b : ImportBundle)
    (strategy : MergeStrategy) (gen : Nat → String) (now : Nat) (loc : String) :
    Except String (ImportResults × List Conversation) :=
  match b.conversations with
  | ConvsField.arr rs => Except.ok (importLoop rs store strategy gen 0 now loc)
  | _ => Except.error "Invalid import data format"

/-- The validation-and-import core of `handleImport` (history.js 321-358):
`version` is presence-checked and `conversations` array-checked before
anything is imported; the user-confirmation dialogs in between do not touch
the store and are elided. -/
def handleImport (store : List Conversation) (b : ImportBundle)
    (strategy : MergeStrategy) (gen : Nat → String) (now : Nat) (loc : String) :
    Except String (ImportResults × List Conversation) :=
  if versionTruthy b.version then
    match b.conversations with
    | ConvsField.arr _ => importData store b strategy gen now loc
    | _ => Except.error "Invalid export file: conversations must be an array"
  else Except.error "Invalid export file: missing version field"

/-- The backend contents after `handleImport`: unchanged when validation
threw, the loop's final store otherwise. -/
def handleImportStoreAfter (store : List Conversation) (b : ImportBundle)
    (strategy : MergeStrategy) (gen : Nat → String) (now : Nat) (loc : String) :
    List Conversation :=
  match handleImport store b strategy gen now loc with
  | Except.ok p => p.2
  | Except.error _ => store

/-! ### DOM model

The content script walks real DOM nodes.  A node is either a text node or an
element carrying its lower-cased tag name, its `className` string, its
`aria-hidden` flag, its `href` attribute and its child nodes. -/

inductive DomNode where
  | text (s : List Char)
  | elem (tag : List Char) (className : List Char) (ariaHidden : Bool)
      (href : Option (List Char)) (children : List DomNode)

/-- `className` of an element (empty for a text node). -/
def DomNode.cls : DomNode → List Char
  | DomNode.text _ => []
  | DomNode.elem _ cn _ _ _ => cn

/-- Split a `className` string at spaces into the `classList` tokens. -/
def splitClasses (cn : List Char) : List (List Char) :=
  match cn with
  | [] => []
  | c :: rest =>
    match splitClasses rest with
    | [] => if c = ' ' then [] else [[c]]
    | w :: ws => if c = ' ' then [] :: w :: ws else (c :: w) :: ws

/-- `el.classList.contains(t)`. -/
def classListContains (cn : List Char) (t : List Char) : Bool :=
  (splitClasses cn).contains t

/-- Whitespace as trimmed by `String.prototype.trim` (the forms that occur in
extracted chat text). -/
def isWsChar (c : Char) : Bool := c = ' ' || c = '\t' || c = '\n' || c = '\r'

/-- `s.trim()` on a character list. -/
def trimChars (l : List Char) : List Char :=
  ((l.dropWhile isWsChar).reverse.dropWhile isWsChar).reverse

/-- `node.textContent`: concatenated text of all descendant text nodes. -/
def textContent : DomNode → List Char
  | DomNode.text s => s
  | DomNode.elem _ _ _ _ children => textContentList children
where
  textContentList : List DomNode → List Char
  | [] => []
  | n :: rest => textContent n ++ textContentList rest

/-- `innerText` as the fallback scan reads it; rendered text is approximated
by the concatenated text content. -/
def innerTextOf (n : DomNode) : List Char := textContent n

mutual

/-- `querySelector('code')` looking at one node: the node itself if it is a
`code` element, else its descendants in document order. -/
def firstCodeNode : DomNode → Option DomNode
  | DomNode.text _ => none
  | DomNode.elem tag cn ah href children =>
    if tag = "code".toList then some (DomNode.elem tag cn ah href children)
    else firstCodeIn children

/-- `node.querySelector('code')` over a forest: the first `code` element in
document order. -/
def firstCodeIn : List DomNode → Option DomNode
  | [] => none
  | n :: rest =>
    match firstCodeNode n with
    | some found => some found
    | none => firstCodeIn rest

end

/-- One word character of the `/language-(\w+)/` regex. -/
def isWordChar (c : Char) : Bool :=
  ('a' ≤ c && c ≤ 'z') || ('A' ≤ c && c ≤ 'Z') || ('0' ≤ c && c ≤ '9') || c = '_'

/-- `className.match(/language-(\w+)/)?.[1] || ''`: the first occurrence of
`language-` followed by at least one word character yields the maximal word
run after it; otherwise the empty string. -/
def langOf : List Char → List Char
  | [] => []
  | c :: rest =>
    if segAtFront "language-".toList (c :: rest) then
      let after := (c :: rest).drop 9
      match after with
      | [] => langOf rest
      | a :: _ => if isWordChar a then after.takeWhile isWordChar else langOf rest
    else langOf rest

/-- Tags pruned as non-content by `extractMarkdownFromElement`. -/
def noiseTags : List (List Char) :=
  ["script".toList, "style".toList, "nav".toList, "header".toList,
   "footer".toList, "button".toList]

/-- The noise filter of `extractMarkdownFromElement` (storage-manager.js
426-427). -/
def isNoise (tag cn : List Char) (ariaHidden : Bool) : Bool :=
  classListContains cn "sr-only".toList || ariaHidden || noiseTags.contains tag

/-- The core of a fenced code block: opening fence with language tag, the
verbatim body, closing fence. -/
def fenceCore (lang body : List Char) : List Char :=
  "```".toList ++ lang ++ "\n".toList ++ body ++ "\n```".toList

/-- The fenced code block emitted for a `pre` element
(the template literal of storage-manager.js line 433). -/
def fenceBlock (lang body : List Char) : List Char :=
  "\n".toList ++ fenceCore lang body ++ "\n\n".toList

mutual

/-- `extractMarkdownFromElement` (storage-manager.js 418-459). -/
def extractMarkdownFromElement : DomNode → List Char
  | DomNode.text s => s
  | DomNode.elem tag cn ariaHidden href children =>
    if isNoise tag cn ariaHidden then []
    else if tag = "pre".toList then
      let code := firstCodeIn children
      let lang := match code with
        | some c => langOf c.cls
        | none => []
      let body := match code with
        | some c => textContent c
        | none => textContent (DomNode.elem tag cn ariaHidden href children)
      fenceBlock lang body
    else if tag = "code".toList then
      " `".toList ++ textContent (DomNode.elem tag cn ariaHidden href children) ++ "` ".toList
    else if tag = "strong".toList ∨ tag = "b".toList then
      "**".toList ++ getChildrenMarkdown children ++ "**".toList
    else if tag = "em".toList ∨ tag = "i".toList then
      "*".toList ++ getChildrenMarkdown children ++ "*".toList
    else if tag = "a".toList then
      "[".toList ++ trimChars (textContent (DomNode.elem tag cn ariaHidden href children))
        ++ "](".toList ++ href.getD [] ++ ")".toList
    else if tag = "ul".toList ∨ tag = "ol".toList then
      "\n".toList ++ listItems (tag = "ol".toList) children 0 ++ "\n".toList
    else if tag = "p".toList then
      trimChars (getChildrenMarkdown children) ++ "\n\n".toList
    else if tag = "br".toList then
      "\n".toList
    else getChildrenMarkdown children

/-- `getChildrenMarkdown` (storage-manager.js 461-463). -/
def getChildrenMarkdown : List DomNode → List Char
  | [] => []
  | n :: rest => extractMarkdownFromElement n ++ getChildrenMarkdown rest

/-- The list branch of the renderer: iterate over the element children with
their positional index, rendering each `li` child as one trimmed bullet. -/
def listItems (ordered : Bool) (l : List DomNode) (i : Nat) : List Char :=
  match l with
  | [] => []
  | DomNode.text _ :: rest => listItems ordered rest i
  | DomNode.elem tag cn ah href children :: rest =>
    (if tag = "li".toList then
      (if ordered then (Nat.repr (i + 1)).toList ++ ". ".toList else "- ".toList)
        ++ trimChars (extractMarkdownFromElement (DomNode.elem tag cn ah href children))
        ++ "\n".toList
     else [])
      ++ listItems ordered rest (i + 1)

end

/-! ### Emergency fallback scan (storage-manager.js 599-611)

When the structural scan found no messages, each `.markdown` / `.prose` /
`.ds-markdown` container `ai` is processed by
`let prev = ai.parentElement; while (prev && prev.innerText.length < 5)
prev = prev.previousElementSibling;` — the chain visited is the parent
followed by the parent's preceding element siblings. -/

/-- A message assembled by the content script. -/
structure DomMessage where
  role : Role
  content : List Char
deriving DecidableEq, Repr

/-- The container predicate of the fallback scan. -/
def isFallbackContainer (n : DomNode) : Bool :=
  classListContains n.cls "markdown".toList ||
  classListContains n.cls "prose".toList ||
  classListContains n.cls "ds-markdown".toList

/-- The `while` walk: first chain element whose `innerText` has at least 5
characters yields its trimmed `innerText`; an exhausted chain yields `''`. -/
def fallbackUserText : List DomNode → List Char
  | [] => []
  | p :: rest =>
    if (innerTextOf p).length < 5 then fallbackUserText rest
    else trimChars (innerTextOf p)

/-- Messages pushed for one fallback container: an inferred User message when
the walk produced non-empty text, always one Assistant message. -/
def fallbackMessagesFor (ai : DomNode) (parent : DomNode)
    (prevSiblings : List DomNode) : List DomMessage :=
  let userText := fallbackUserText (parent :: prevSiblings)
  (if userText ≠ [] then [⟨Role.User, userText⟩] else [])
    ++ [⟨Role.Assistant, trimChars (extractMarkdownFromElement ai)⟩]

/-- Element children of a node (`node.children`; text nodes excluded). -/
def elemChildren (n : DomNode) : List DomNode :=
  match n with
  | DomNode.text _ => []
  | DomNode.elem _ _ _ _ children =>
    children.filter (fun c => match c with
      | DomNode.elem _ _ _ _ _ => true
      | DomNode.text _ => false)

/-- The fallback messages for a container `ai` whose parent is element child
number `i` of `gp`: `previousElementSibling` enumerates the earlier element
children of `gp`, nearest first. -/
def fallbackAt (gp : DomNode) (i : Nat) (ai : DomNode) : List DomMessage :=
  let parent := (elemChildren gp).getD i (DomNode.text [])
  let prevSiblings := ((elemChildren gp).take i).reverse
  fallbackMessagesFor ai parent prevSiblings

/-! ### Role detection (storage-manager.js 479-502) -/

/-- The attributes, text and geometry of one element as `detectRole` reads
them.  `rectLeft = none` models `getBoundingClientRect` throwing (the
`try`/`catch` skips the visual tier). -/
structure ElementView where
  tagLower : String
  inUserQuery : Bool
  inModelResponse : Bool
  dataMessageAuthorRole : Option String
  dataRole : Option String
  ariaLabel : Option String
  innerText : String
  rectLeft : Option Int
deriving DecidableEq, Repr

/-- JS `a || b` over two nullable string attributes: `a` wins iff it is
non-null and non-empty. -/
def jsOrOpt (a b : Option String) : Option String :=
  match a with
  | some s => if s = "" then b else some s
  | none => b

/-- Substring test of a regex alternation of literals. -/
def anyKeyword (ks : List String) (s : String) : Bool :=
  ks.any (fun k => strIncludes s k)

/-- Tiers 3-5 of `detectRole`: multilingual keywords on the accessible label
and the first 50 characters of the rendered text, then the visual alignment
heuristic (`rect.left > innerWidth * 0.5`, exact arithmetic `2*left > w`),
then alternation by positional index. -/
def detectRoleTier3 (e : ElementView) (index : Nat) (w : Nat) : Role :=
  let aria := (e.ariaLabel.getD "").toLower
  let text := (e.innerText.toLower).take 50
  if anyKeyword ["you", "user", "你", "用户", "提问"] aria ||
      anyKeyword ["you", "user", "你"] text then Role.User
  else if anyKeyword ["gemini", "assistant", "ai", "模型", "助手", "回答"] aria ||
      anyKeyword ["gemini", "assistant", "ai"] text then Role.Assistant
  else
    match e.rectLeft with
    | some left =>
      if (w : Int) < 2 * left then Role.User
      else if index % 2 = 0 then Role.User else Role.Assistant
    | none => if index % 2 = 0 then Role.User else Role.Assistant

/-- `detectRole(el, index)`: the five-tier cascade.  `w` is
`window.innerWidth`. -/
def detectRole (e : ElementView) (index : Nat) (w : Nat) : Role :=
  if e.tagLower = "user-query" || e.inUserQuery then Role.User
  else if e.tagLower = "model-response" || e.inModelResponse then Role.Assistant
  else
    match jsOrOpt e.dataMessageAuthorRole e.dataRole with
    | some s =>
      if s = "" then detectRoleTier3 e index w
      else if s = "user" then Role.User else Role.Assistant
    | none => detectRoleTier3 e index w

/-! ## Shared lemmas -/

/-- The cleanup call leaves the pushed array a permutation of itself (the
in-place sort reorders, nothing is added or removed). -/
theorem checkAndCleanupSideEffect_perm (l : List Conversation) :
    (checkAndCleanupSideEffect l).Perm l := by
  unfold checkAndCleanupSideEffect
  by_cases h : storageExceeds l = true
  · simp only [h, if_true]
    exact List.perm_insertionSort byTsDesc l
  · simp only [h]
    simp

/-- `find?` returns the unique element satisfying the id test. -/
theorem find_id_unique (l : List Conversation) (a : Conversation) (id : String)
    (hmem : a ∈ l) (hid : a.id = id)
    (huniq : ∀ c ∈ l, c.id = id → c = a) :
    l.find? (fun c => c.id == id) = some a := by
  induction l with
  | nil => cases hmem
  | cons c rest ih =>
    by_cases hc : c.id = id
    · have hca : c = a := huniq c (by simp) hc
      subst hca
      have hbc : (c.id == id) = true := by simp [hc]
      simp [List.find?_cons, hbc]
    · have hmem2 : a ∈ rest := by
        rcases List.mem_cons.mp hmem with hr | hr
        · exact absurd (hr ▸ hid) hc
        · exact hr
      have hbc : (c.id == id) = false := by simp [hc]
      have hrec := ih hmem2 (fun x hx hxid => huniq x (by simp [hx]) hxid)
      simpa [List.find?_cons, hbc] using hrec

/-! ## Claims -/

/-- C7: `updateConversation` on an id absent from the store fails with the
Not-Found error and performs no backend write: the stored collection after
the call is exactly the original one. -/
theorem updateConversation_notFound (store : List Conversation) (id : String)
    (u : ConversationData) (now : Nat)
    (h : ∀ c ∈ store, c.id ≠ id) :
    updateConversation store id u now =
      Except.error ("Conversation " ++ id ++ " not found")
    ∧ updateConversationStoreAfter store id u now = store := by
  have hf : updateFirst store id u now = none := by
    induction store with
    | nil => rfl
    | cons c rest ih =>
      have hc : ¬ c.id = id := h c (by simp)
      have hrest := ih (fun x hx => h x (by simp [hx]))
      simp [updateFirst, hc, hrest]
  refine ⟨?_, ?_⟩
  · simp [updateConversation, hf]
  · simp [updateConversationStoreAfter, updateConversation, hf]

/-- Witness for C7 at the empty store and id `"x"`. -/
theorem updateConversation_notFound_witness :
    updateConversation [] "x" {} 0 =
      Except.error ("Conversation " ++ "x" ++ " not found")
    ∧ updateConversationStoreAfter [] "x" {} 0 = [] :=
  updateConversation_notFound [] "x" {} 0 (by intro c hc; cases hc)

/-- C10: `detectRole` is a function of the element's attributes, text and
geometry together with the positional index and viewport width alone: two
elements that agree on every observed component are classified identically,
so repeated calls on the same element yield the same role. -/
theorem detectRole_deterministic (e1 e2 : ElementView) (index w : Nat)
    (h1 : e1.tagLower = e2.tagLower) (h2 : e1.inUserQuery = e2.inUserQuery)
    (h3 : e1.inModelResponse = e2.inModelResponse)
    (h4 : e1.dataMessageAuthorRole = e2.dataMessageAuthorRole)
    (h5 : e1.dataRole = e2.dataRole) (h6 : e1.ariaLabel = e2.ariaLabel)
    (h7 : e1.innerText = e2.innerText) (h8 : e1.rectLeft = e2.rectLeft) :
    detectRole e1 index w = detectRole e2 index w := by
  have he : e1 = e2 := by
    cases e1
    cases e2
    simp_all
  rw [he]

/-- Witness for C10 at a concrete element. -/
theorem detectRole_deterministic_witness :
    detectRole ⟨"div", false, false, none, none, none, "hello", none⟩ 0 1000 =
      detectRole ⟨"div", false, false, none, none, none, "hello", none⟩ 0 1000 :=
  detectRole_deterministic _ _ 0 1000 rfl rfl rfl rfl rfl rfl rfl rfl

/-- C3: the record `saveConversation` appends and returns carries exactly the
eleven schema fields (defaults filled), with the `messages` and `modifiedAt`
keys absent; any other input field — in particular a supplied `messages`
array, `modifiedAt`, `id` or `timestamp` — does not influence the record,
and the record is a member of the persisted list. -/
theorem saveConversation_exact_fields (store : List Conversation)
    (d : ConversationData) (id : String) (ts : Nat) (loc : String) :
    (saveConversation store d id ts loc).1 =
      { id := id
        title := jsOrStr d.title "Untitled Conversation"
        content := jsOrStr d.content ""
        provider := jsOrStr d.provider "unknown"
        timestamp := ts
        url := jsOrStr d.url loc
        conversationId := jsOrStr d.conversationId ""
        tags := d.tags.getD []
        isFavorite := d.isFavorite.getD false
        notes := jsOrStr d.notes ""
        messageCount := d.messageCount.getD 0
        messages := none
        modifiedAt := none }
    ∧ (∀ m ma oid ots,
        saveConversation store
          { d with messages := m, modifiedAt := ma, id := oid, timestamp := ots }
          id ts loc = saveConversation store d id ts loc)
    ∧ (saveConversation store d id ts loc).1 ∈ (saveConversation store d id ts loc).2 := by
  refine ⟨rfl, fun m ma oid ots => rfl, ?_⟩
  have hp := checkAndCleanupSideEffect_perm (store ++ [mkConversation id ts loc d])
  exact hp.mem_iff.mpr (by simp [saveConversation])

/-- C4: an import bundle with a falsy `version` field, or whose
`conversations` field is absent or not an array, makes the import fail with
the Invalid-Format error before any record is processed, leaving the stored
collection unchanged. -/
theorem handleImport_invalidFormat (store : List Conversation) (b : ImportBundle)
    (strategy : MergeStrategy) (gen : Nat → String) (now : Nat) (loc : String)
    (h : versionTruthy b.version = false ∨ ∀ rs, b.conversations ≠ ConvsField.arr rs) :
    (∃ e, handleImport store b strategy gen now loc = Except.error e)
    ∧ handleImportStoreAfter store b strategy gen now loc = store := by
  have he : ∃ e, handleImport store b strategy gen now loc = Except.error e := by
    rcases h with h | h
    · exact ⟨"Invalid export file: missing version field", by simp [handleImport, h]⟩
    · by_cases hv : versionTruthy b.version = true
      · cases hb : b.conversations with
        | arr rs => exact absurd hb (h rs)
        | absent =>
          exact ⟨"Invalid export file: conversations must be an array",
            by simp [handleImport, hv, hb]⟩
        | notArray =>
          exact ⟨"Invalid export file: conversations must be an array",
            by simp [handleImport, hv, hb]⟩
      · have hv2 : versionTruthy b.version = false := by
          cases hvv : versionTruthy b.version
          · rfl
          · exact absurd hvv hv
        exact ⟨"Invalid export file: missing version field", by simp [handleImport, hv2]⟩
  obtain ⟨e, hee⟩ := he
  exact ⟨⟨e, hee⟩, by simp [handleImportStoreAfter, hee]⟩

/-- Witness for C4 at a bundle missing both fields. -/
theorem handleImport_invalidFormat_witness :
    (∃ e, handleImport [] ⟨none, ConvsField.absent⟩ MergeStrategy.skip
        (fun _ => "") 0 "" = Except.error e)
    ∧ handleImportStoreAfter [] ⟨none, ConvsField.absent⟩ MergeStrategy.skip
        (fun _ => "") 0 "" = [] :=
  handleImport_invalidFormat [] ⟨none, ConvsField.absent⟩ MergeStrategy.skip
    (fun _ => "") 0 "" (Or.inl (by decide))

/-- C8: `searchConversations` with the empty query and no filters returns
exactly the stored conversations — a permutation of the store — sorted
descending by timestamp, for any input ordering. -/
theorem searchConversations_empty_query (store : List Conversation) :
    (searchConversations store "" noFilters).Perm store
    ∧ List.Sorted byTsDesc (searchConversations store "" noFilters) := by
  have hs : searchConversations store "" noFilters = sortByTimestampDesc store := by
    simp [searchConversations, noFilters]
  rw [hs]
  exact ⟨List.perm_insertionSort byTsDesc store, List.sorted_insertionSort byTsDesc store⟩

/-- A stored record viewed as an input object (the comparison underlying the
claim "equal to the saved data"): schema fields become present input fields,
the optional `messages` / `modifiedAt` keys carry over. -/
def dataView (c : Conversation) : ConversationData :=
  { id := none
    title := some c.title
    content := some c.content
    provider := some c.provider
    timestamp := none
    url := some c.url
    conversationId := some c.conversationId
    tags := some c.tags
    isFavorite := some c.isFavorite
    notes := some c.notes
    messageCount := some c.messageCount
    messages := c.messages
    modifiedAt := c.modifiedAt }

/-- Erase the store-assigned fields from an input object ("except for id and
timestamp"). -/
def eraseStoreFields (d : ConversationData) : ConversationData :=
  { d with id := none, timestamp := none }

/-- An input object that supplies every content field plus a `messages`
array. -/
def dC2 : ConversationData :=
  { title := some "t"
    content := some "c"
    provider := some "p"
    url := some "u"
    conversationId := some "cid"
    tags := some ["x"]
    isFavorite := some true
    notes := some "n"
    messageCount := some 1
    messages := some [⟨"user", "hi"⟩] }

/-- Counterexample to C2 as stated: for the input `dC2` (which carries a
`messages` array), the record retrieved after the save is not equal to the
input outside `id` and `timestamp` — the `messages` field was dropped. -/
theorem saveConversation_roundtrip_counterexample :
    getConversation (saveConversation [] dC2 "conv_1" 7 "L").2 "conv_1" =
      some (saveConversation [] dC2 "conv_1" 7 "L").1
    ∧ dataView (saveConversation [] dC2 "conv_1" 7 "L").1 ≠ eraseStoreFields dC2 := by
  exact ⟨by decide, by decide⟩

/-- C2 (amended): provided the generated id is fresh, `getConversation` of
the returned id retrieves exactly the record `saveConversation` returned —
the defaults-filled eleven-field projection of the input; input fields agree
with the record only where supplied with truthy values, and fields outside
the schema (such as `messages`) are not round-tripped. -/
theorem saveConversation_roundtrip (store : List Conversation)
    (d : ConversationData) (id : String) (ts : Nat) (loc : String)
    (h : ∀ c ∈ store, c.id ≠ id) :
    getConversation (saveConversation store d id ts loc).2 id =
      some (saveConversation store d id ts loc).1 := by
  have hp := checkAndCleanupSideEffect_perm (store ++ [mkConversation id ts loc d])
  have hmem : mkConversation id ts loc d ∈
      checkAndCleanupSideEffect (store ++ [mkConversation id ts loc d]) :=
    hp.mem_iff.mpr (by simp)
  have huniq : ∀ c ∈ checkAndCleanupSideEffect (store ++ [mkConversation id ts loc d]),
      c.id = id → c = mkConversation id ts loc d := by
    intro c hc hcid
    rcases List.mem_append.mp (hp.mem_iff.mp hc) with hs | hs
    · exact absurd hcid (h c hs)
    · simpa using hs
  exact find_id_unique _ _ _ hmem rfl huniq

/-- Witness for C2 (amended) at the empty store. -/
theorem saveConversation_roundtrip_witness :
    getConversation (saveConversation [] {} "conv_9" 3 "L").2 "conv_9" =
      some (saveConversation [] {} "conv_9" 3 "L").1 :=
  saveConversation_roundtrip [] {} "conv_9" 3 "L" (by intro c hc; cases hc)

/-- C6: capacity eviction never removes a favorite.  For any store whose ids
are distinct (the store's id-uniqueness invariant), every conversation with
`isFavorite = true` survives `checkAndCleanupStorage`, whether or not
pressure triggered eviction. -/
theorem checkAndCleanupStorage_keeps_favorites (l : List Conversation)
    (c : Conversation) (hnodup : (l.map (fun x => x.id)).Nodup)
    (hmem : c ∈ l) (hfav : c.isFavorite = true) :
    c ∈ checkAndCleanupStorage l := by
  unfold checkAndCleanupStorage
  by_cases hex : storageExceeds l = true
  · simp only [hex, if_true]
    have hperm := List.perm_insertionSort byTsDesc l
    have hmemS : c ∈ sortByTimestampDesc l := by
      unfold sortByTimestampDesc
      exact hperm.mem_iff.mpr hmem
    by_cases hnf :
        0 < ((sortByTimestampDesc l).filter (fun x => !x.isFavorite)).length
    · simp only [hnf, if_true]
      rw [List.mem_filter]
      refine ⟨hmemS, ?_⟩
      have hnotin : ∀ x ∈ ((sortByTimestampDesc l).filter (fun x => !x.isFavorite)).drop
          (((sortByTimestampDesc l).filter (fun x => !x.isFavorite)).length -
            (((sortByTimestampDesc l).filter (fun x => !x.isFavorite)).length + 9) / 10),
          ¬ x.id = c.id := by
        intro x hxmem hxid
        have hxnf : x ∈ (sortByTimestampDesc l).filter (fun x => !x.isFavorite) :=
          List.drop_subset _ _ hxmem
        have hxl : x ∈ l := by
          have hxs : x ∈ sortByTimestampDesc l := List.mem_of_mem_filter hxnf
          unfold sortByTimestampDesc at hxs
          exact hperm.mem_iff.mp hxs
        have hxfav : x.isFavorite = false := by
          have hx2 := List.of_mem_filter hxnf
          simpa using hx2
        have hxc : x = c := List.inj_on_of_nodup_map hnodup hxl hmem hxid
        rw [hxc, hfav] at hxfav
        cases hxfav
      simp only [Bool.not_eq_true']
      rw [List.contains_eq_any_beq]
      rw [List.any_eq_false]
      intro x hx
      rw [List.mem_map] at hx
      obtain ⟨y, hy, hyid⟩ := hx
      subst hyid
      simpa using (show ¬ c.id = y.id from fun he => hnotin y hy he.symm)
    · simp only [hnf, if_false]
      exact hmemS
  · have hex2 : storageExceeds l = false := by
      cases hb : storageExceeds l
      · rfl
      · exact absurd hb hex
    simp only [hex2]
    simpa using hmem

/-- Witness for C6 at a one-favorite store. -/
theorem checkAndCleanupStorage_keeps_favorites_witness :
    (⟨"f", "t", "", "p", 1, "", "", [], true, "", 0, none, none⟩ : Conversation) ∈
      checkAndCleanupStorage [⟨"f", "t", "", "p", 1, "", "", [], true, "", 0, none, none⟩] :=
  checkAndCleanupStorage_keeps_favorites _ _ (by decide) (by decide) (by decide)

/-! ## C1: capacity eviction and the persisting write -/

/-- A 4,718,600-character content string, enough to put the serialized list
over 90% of the 5 MB ceiling. -/
def bigStr : String := String.mk (List.replicate 4718600 'a')

/-- An old non-favorite record holding `bigStr`. -/
def convBigC1 : Conversation :=
  { id := "a", title := "t", content := bigStr, provider := "p", timestamp := 1,
    url := "u", conversationId := "", tags := [], isFavorite := false,
    notes := "", messageCount := 0 }

/-- The record created by saving an empty input at timestamp 2. -/
def newC1 : Conversation := mkConversation "b" 2 "L" ({} : ConversationData)

/-- The pushed list that `checkAndCleanupStorage` measures. -/
def pushedC1 : List Conversation := [convBigC1, newC1]

theorem replicate_one_sum (n : Nat) : (List.replicate n (1 : Nat)).sum = n := by
  induction n with
  | zero => rfl
  | succ m ih =>
    rw [List.replicate_succ, List.sum_cons, ih]
    omega

theorem bigStr_toList : bigStr.toList = List.replicate 4718600 'a' := rfl

theorem bigStr_jsonLen : jsonStrLen bigStr = 4718602 := by
  rw [jsonStrLen]
  rw [bigStr_toList]
  rw [List.map_replicate]
  rw [show jsonEscLen 'a' = 1 from by decide]
  rw [replicate_one_sum]

theorem convBigC1_jsonLen : jsonConvLen convBigC1 = 4718751 := by
  rw [jsonConvLen]
  rw [show convBigC1.content = bigStr from rfl]
  rw [bigStr_jsonLen]
  rw [show jsonStrLen convBigC1.id = 3 from by decide]
  rw [show jsonStrLen convBigC1.title = 3 from by decide]
  rw [show jsonStrLen convBigC1.provider = 3 from by decide]
  rw [show natLen convBigC1.timestamp = 1 from by decide]
  rw [show jsonStrLen convBigC1.url = 3 from by decide]
  rw [show jsonStrLen convBigC1.conversationId = 2 from by decide]
  rw [show jsonStrListLen convBigC1.tags = 2 from by decide]
  rw [show jsonStrLen convBigC1.notes = 2 from by decide]
  rw [show natLen convBigC1.messageCount = 1 from by decide]
  rw [show convBigC1.isFavorite = false from rfl]
  rw [show convBigC1.messages = (none : Option (List StoredMessage)) from rfl]
  rw [show convBigC1.modifiedAt = (none : Option Nat) from rfl]
  norm_num

theorem pushedC1_jsonLen : jsonConvListLen pushedC1 = 4718931 := by
  have hnew : jsonConvLen newC1 = 177 := by decide
  rw [pushedC1]
  rw [jsonConvListLen]
  rw [List.map_cons, List.map_cons, List.map_nil]
  rw [convBigC1_jsonLen, hnew]
  rw [List.sum_cons, List.sum_cons, List.sum_nil]
  rw [List.length_cons, List.length_cons, List.length_nil]
  · norm_num
  · intro h
    exact absurd h (List.cons_ne_nil _ _)

/-- C1 (the code violates it): after a save that pushes the serialized list
over 90% of the 5 MB ceiling with a non-favorite present, the persisted list
still contains every record — `saveConversation` discards the filtered list
`checkAndCleanupStorage` returned (which does omit the oldest 10% of
non-favorites), and persists the merely re-sorted array. -/
theorem saveConversation_discards_eviction :
    storageExceeds pushedC1 = true
    ∧ (saveConversation [convBigC1] ({} : ConversationData) "b" 2 "L").2 =
        [newC1, convBigC1]
    ∧ convBigC1.isFavorite = false
    ∧ convBigC1 ∈ (saveConversation [convBigC1] ({} : ConversationData) "b" 2 "L").2
    ∧ checkAndCleanupStorage pushedC1 = [newC1] := by
  have hex : storageExceeds pushedC1 = true := by
    unfold storageExceeds
    rw [pushedC1_jsonLen]
    decide
  have hsort : sortByTimestampDesc pushedC1 = [newC1, convBigC1] := by
    have hcond : ¬ byTsDesc convBigC1 newC1 := by
      unfold byTsDesc
      rw [show newC1.timestamp = 2 from rfl, show convBigC1.timestamp = 1 from rfl]
      norm_num
    unfold sortByTimestampDesc pushedC1
    rw [show List.insertionSort byTsDesc [convBigC1, newC1] =
        List.orderedInsert byTsDesc convBigC1 [newC1] from rfl]
    rw [show List.orderedInsert byTsDesc convBigC1 [newC1] =
        if byTsDesc convBigC1 newC1 then convBigC1 :: [newC1]
        else newC1 :: List.orderedInsert byTsDesc convBigC1 [] from rfl]
    rw [if_neg hcond]
    rfl
  have hside : checkAndCleanupSideEffect pushedC1 = [newC1, convBigC1] := by
    unfold checkAndCleanupSideEffect
    rw [hex]
    rw [if_pos rfl]
    exact hsort
  have hsave : (saveConversation [convBigC1] ({} : ConversationData) "b" 2 "L").2 =
      [newC1, convBigC1] := by
    simp only [saveConversation]
    rw [show [convBigC1] ++ [mkConversation "b" 2 "L" ({} : ConversationData)] =
        pushedC1 from rfl]
    exact hside
  have hclean : checkAndCleanupStorage pushedC1 = [newC1] := by
    unfold checkAndCleanupStorage
    rw [hex]
    rw [if_pos rfl]
    rw [hsort]
    decide
  exact ⟨hex, hsave, rfl, by rw [hsave]; simp, hclean⟩

/-! ## C5: the emergency fallback pairing -/

/-- A sibling of the fallback container inside the same parent, with more
than 5 characters of text. -/
def sibC5 : DomNode :=
  DomNode.elem "div".toList [] false none [DomNode.text "Hello there friend".toList]

/-- The fallback container (class `markdown`). -/
def aiC5 : DomNode :=
  DomNode.elem "div".toList "markdown".toList false none
    [DomNode.text "Paris is the capital.".toList]

/-- The container's parent, holding the preceding sibling and the container. -/
def parentC5 : DomNode := DomNode.elem "div".toList [] false none [sibC5, aiC5]

/-- An element before the parent. -/
def outerC5 : DomNode :=
  DomNode.elem "div".toList [] false none
    [DomNode.text "What is the capital of France?".toList]

/-- The surrounding tree: the parent is element child 1. -/
def gpC5 : DomNode := DomNode.elem "div".toList [] false none [outerC5, parentC5]

/-- Counterexample to C5 as stated: `sibC5` is the nearest preceding sibling
of the container with at least 5 characters of text, yet the paired User
message carries the parent's whole text (the walk starts at
`ai.parentElement`, not at the container's siblings) — which differs from the
sibling's text. -/
theorem fallback_counterexample :
    isFallbackContainer aiC5 = true
    ∧ 5 ≤ (innerTextOf sibC5).length
    ∧ fallbackAt gpC5 1 aiC5 =
        [⟨Role.User, "Hello there friendParis is the capital.".toList⟩,
         ⟨Role.Assistant, "Paris is the capital.".toList⟩]
    ∧ "Hello there friendParis is the capital.".toList ≠ trimChars (innerTextOf sibC5) := by
  refine ⟨by decide, by decide, by decide, by decide⟩

/-- C5 (amended): the walk starts at the container's parent and continues
through the parent's preceding element siblings; the paired User message's
content is the trimmed `innerText` of the first chain element whose
`innerText` has at least 5 characters (shorter elements are skipped), a User
message is pushed only when that trimmed text is non-empty, and exactly one
Assistant message is pushed per container. -/
theorem fallback_amended (ai parent c : DomNode) (sibs pre post : List DomNode)
    (hchain : parent :: sibs = pre ++ c :: post)
    (hpre : ∀ x ∈ pre, (innerTextOf x).length < 5)
    (hc : 5 ≤ (innerTextOf c).length) :
    fallbackMessagesFor ai parent sibs =
      (if trimChars (innerTextOf c) = [] then
        [⟨Role.Assistant, trimChars (extractMarkdownFromElement ai)⟩]
      else
        [⟨Role.User, trimChars (innerTextOf c)⟩,
         ⟨Role.Assistant, trimChars (extractMarkdownFromElement ai)⟩]) := by
  have h1 : fallbackUserText (pre ++ c :: post) = trimChars (innerTextOf c) := by
    clear hchain
    induction pre with
    | nil =>
      rw [List.nil_append]
      rw [fallbackUserText]
      rw [if_neg (Nat.not_lt.mpr hc)]
    | cons x xs ih =>
      rw [List.cons_append]
      rw [fallbackUserText]
      rw [if_pos (hpre x (by simp))]
      exact ih (fun y hy => hpre y (by simp [hy]))
  unfold fallbackMessagesFor
  rw [hchain, h1]
  by_cases hz : trimChars (innerTextOf c) = []
  · rw [if_pos hz]
    simp [hz]
  · rw [if_neg hz]
    simp [hz]

/-- Witness for C5 (amended) at a singleton chain. -/
theorem fallback_amended_witness :
    fallbackMessagesFor aiC5 parentC5 [] =
      (if trimChars (innerTextOf parentC5) = [] then
        [⟨Role.Assistant, trimChars (extractMarkdownFromElement aiC5)⟩]
      else
        [⟨Role.User, trimChars (innerTextOf parentC5)⟩,
         ⟨Role.Assistant, trimChars (extractMarkdownFromElement aiC5)⟩]) :=
  fallback_amended aiC5 parentC5 parentC5 [] [] [] rfl
    (by intro x hx; cases hx) (by decide)

/-! ## C9: fenced code blocks survive the renderer -/

/-- The backtick character. -/
def backquoteChar : Char := Char.ofNat 96

/-- Tags whose renderer branch does not recurse into markdown children
(`pre` emits its own fence, `code` and `a` take raw text, `br` is a bare
newline). -/
def nonRecursingTags : List (List Char) :=
  ["pre".toList, "code".toList, "a".toList, "br".toList]

/-- A path from the root of a subtree down to a particular node along
transparent containers: every strict ancestor on the path is kept by the
noise filter, is not one of the non-recursing tags, and recurses into the
child on the path (for `ul`/`ol` the child must be an `li` element). -/
inductive FencePath : DomNode → DomNode → Prop where
  | here (p : DomNode) : FencePath p p
  | step (tag cn : List Char) (ariaHidden : Bool) (href : Option (List Char))
      (children : List DomNode) (child p : DomNode)
      (hmem : child ∈ children)
      (hsub : FencePath child p)
      (hn : isNoise tag cn ariaHidden = false)
      (htag : tag ∉ nonRecursingTags)
      (hli : (tag = "ul".toList ∨ tag = "ol".toList) →
        ∃ cn2 ah2 href2 ch2, child = DomNode.elem "li".toList cn2 ah2 href2 ch2) :
      FencePath (DomNode.elem tag cn ariaHidden href children) p

theorem fenceCore_head (lang body : List Char) :
    (fenceCore lang body).head? = some backquoteChar := rfl

theorem fenceCore_getLast (lang body : List Char) :
    (fenceCore lang body).getLast? = some backquoteChar := by
  unfold fenceCore
  rw [List.getLast?_append_of_ne_nil _ (by decide)]
  decide

/-- An occurrence with a non-whitespace first character survives
`dropWhile isWsChar`. -/
theorem seg_dropWhile (n l : List Char) (c : Char) (hhd : n.head? = some c)
    (hc : isWsChar c = false) (h : n <:+: l) : n <:+: l.dropWhile isWsChar := by
  obtain ⟨s, t, hst⟩ := h
  subst hst
  induction s with
  | nil =>
    cases n with
    | nil => simp at hhd
    | cons a as =>
      have ha : a = c := by simpa using hhd
      subst ha
      rw [List.nil_append, List.cons_append, List.dropWhile_cons]
      rw [hc]
      simp only [Bool.false_eq_true, if_false]
      exact ⟨[], t, by simp⟩
  | cons b bs ih =>
    simp only [List.cons_append]
    rw [List.dropWhile_cons]
    by_cases hb : isWsChar b = true
    · rw [hb]
      simp only [if_true]
      simpa using ih
    · have hb2 : isWsChar b = false := by
        cases hbb : isWsChar b
        · rfl
        · exact absurd hbb hb
      rw [hb2]
      simp only [Bool.false_eq_true, if_false]
      exact ⟨b :: bs, t, by simp⟩

/-- Infix occurrences reverse. -/
theorem seg_reverse {a b : List Char} (h : a <:+: b) : a.reverse <:+: b.reverse := by
  obtain ⟨s, t, hst⟩ := h
  exact ⟨t.reverse, s.reverse, by rw [← hst]; simp⟩

/-- An occurrence whose first and last characters are non-whitespace
survives `trim`. -/
theorem seg_trimChars (n l : List Char) (c d : Char)
    (hhd : n.head? = some c) (hc : isWsChar c = false)
    (hlast : n.getLast? = some d) (hd : isWsChar d = false)
    (h : n <:+: l) : n <:+: trimChars l := by
  have h1 : n <:+: l.dropWhile isWsChar := seg_dropWhile n l c hhd hc h
  have h2 : n.reverse <:+: (l.dropWhile isWsChar).reverse := seg_reverse h1
  have hrevhd : n.reverse.head? = some d := by
    rw [List.head?_reverse]
    exact hlast
  have h3 : n.reverse <:+: ((l.dropWhile isWsChar).reverse).dropWhile isWsChar :=
    seg_dropWhile _ _ d hrevhd hd h2
  have h4 := seg_reverse h3
  rw [List.reverse_reverse] at h4
  unfold trimChars
  exact h4

/-- The rendering of a member occurs inside the children rendering. -/
theorem seg_getChildrenMarkdown (n : DomNode) (l : List DomNode) (hn : n ∈ l) :
    extractMarkdownFromElement n <:+: getChildrenMarkdown l := by
  induction l with
  | nil => cases hn
  | cons x rest ih =>
    rcases List.mem_cons.mp hn with hx | hx
    · subst hx
      rw [getChildrenMarkdown]
      exact ⟨[], getChildrenMarkdown rest, by simp⟩
    · rw [getChildrenMarkdown]
      exact (ih hx).trans ⟨extractMarkdownFromElement x, [], by simp⟩

/-- The trimmed rendering of an `li` element child occurs inside the list
branch output. -/
theorem seg_listItems (ordered : Bool) (l : List DomNode) (i : Nat)
    (cn2 : List Char) (ah2 : Bool) (href2 : Option (List Char))
    (ch2 : List DomNode)
    (hmem : DomNode.elem "li".toList cn2 ah2 href2 ch2 ∈ l) :
    trimChars (extractMarkdownFromElement (DomNode.elem "li".toList cn2 ah2 href2 ch2)) <:+:
      listItems ordered l i := by
  induction l generalizing i with
  | nil => cases hmem
  | cons x rest ih =>
    rcases List.mem_cons.mp hmem with hx | hx
    · rw [← hx]
      rw [listItems]
      rw [if_pos rfl]
      refine ⟨(if ordered then (Nat.repr (i + 1)).toList ++ ". ".toList else "- ".toList), ?_, ?_⟩
      · exact "\n".toList ++ listItems ordered rest (i + 1)
      · simp
    · cases x with
      | text s =>
        rw [listItems]
        exact ih i hx
      | elem tg cx ax hx2 chx =>
        rw [listItems]
        exact (ih (i + 1) hx).trans
          ⟨(if tg = "li".toList then
              (if ordered then (Nat.repr (i + 1)).toList ++ ". ".toList else "- ".toList)
                ++ trimChars (extractMarkdownFromElement (DomNode.elem tg cx ax hx2 chx))
                ++ "\n".toList
            else []), [], by simp⟩

/-- C9 (amended): in any subtree reaching a non-pruned `pre` element through
transparent containers only, the rendered Markdown contains the fenced code
block whose tag is the language extracted from the first descendant `code`
element's class and whose body is that code element's exact text content. -/
theorem fence_infix_of_path (t p : DomNode) (hpath : FencePath t p)
    (cnP : List Char) (ahP : Bool) (hrefP : Option (List Char))
    (chP : List DomNode)
    (hp : p = DomNode.elem "pre".toList cnP ahP hrefP chP)
    (hnoiseP : isNoise "pre".toList cnP ahP = false)
    (codeEl : DomNode) (hcode : firstCodeIn chP = some codeEl) :
    fenceCore (langOf codeEl.cls) (textContent codeEl) <:+:
      extractMarkdownFromElement t := by
  induction hpath with
  | here q =>
    rw [hp]
    rw [extractMarkdownFromElement]
    rw [hnoiseP]
    simp only [Bool.false_eq_true, if_false, if_true]
    simp only [hcode]
    rw [fenceBlock]
    exact ⟨"\n".toList, "\n\n".toList, rfl⟩
  | step tag cn ah href children child q hmem hsub hn htag hli ih =>
    have hfence := ih hp
    have hnotpre : ¬ tag = "pre".toList := fun hx =>
      htag (hx ▸ (by decide : ("pre".toList : List Char) ∈ nonRecursingTags))
    have hnotcode : ¬ tag = "code".toList := fun hx =>
      htag (hx ▸ (by decide : ("code".toList : List Char) ∈ nonRecursingTags))
    have hnota : ¬ tag = "a".toList := fun hx =>
      htag (hx ▸ (by decide : ("a".toList : List Char) ∈ nonRecursingTags))
    have hnotbr : ¬ tag = "br".toList := fun hx =>
      htag (hx ▸ (by decide : ("br".toList : List Char) ∈ nonRecursingTags))
    have hgc : fenceCore (langOf codeEl.cls) (textContent codeEl) <:+:
        getChildrenMarkdown children :=
      hfence.trans (seg_getChildrenMarkdown child children hmem)
    have htrim : fenceCore (langOf codeEl.cls) (textContent codeEl) <:+:
        trimChars (getChildrenMarkdown children) :=
      seg_trimChars _ _ backquoteChar backquoteChar (fenceCore_head _ _) (by decide)
        (fenceCore_getLast _ _) (by decide) hgc
    rw [extractMarkdownFromElement]
    rw [hn]
    simp only [Bool.false_eq_true, if_false]
    rw [if_neg hnotpre, if_neg hnotcode]
    by_cases hstrong : tag = "strong".toList ∨ tag = "b".toList
    · rw [if_pos hstrong]
      exact hgc.trans ⟨"**".toList, "**".toList, rfl⟩
    · rw [if_neg hstrong]
      by_cases hem : tag = "em".toList ∨ tag = "i".toList
      · rw [if_pos hem]
        exact hgc.trans ⟨"*".toList, "*".toList, rfl⟩
      · rw [if_neg hem, if_neg hnota]
        by_cases hul : tag = "ul".toList ∨ tag = "ol".toList
        · rw [if_pos hul]
          obtain ⟨cn2, ah2, href2, ch2, hchild⟩ := hli hul
          have hmem2 : DomNode.elem "li".toList cn2 ah2 href2 ch2 ∈ children :=
            hchild ▸ hmem
          have hfence2 : fenceCore (langOf codeEl.cls) (textContent codeEl) <:+:
              trimChars (extractMarkdownFromElement
                (DomNode.elem "li".toList cn2 ah2 href2 ch2)) := by
            rw [← hchild]
            exact seg_trimChars _ _ backquoteChar backquoteChar (fenceCore_head _ _)
              (by decide) (fenceCore_getLast _ _) (by decide) hfence
          exact (hfence2.trans
              (seg_listItems (tag = "ol".toList) children 0 cn2 ah2 href2 ch2 hmem2)).trans
            ⟨"\n".toList, "\n".toList, rfl⟩
        · rw [if_neg hul]
          by_cases hptag : tag = "p".toList
          · rw [if_pos hptag]
            exact htrim.trans ⟨[], "\n\n".toList, by simp⟩
          · rw [if_neg hptag, if_neg hnotbr]
            exact hgc

/-- Witness for C9 (amended): a bare `pre` with a `language-py` code child. -/
theorem fence_infix_of_path_witness :
    fenceCore
        (langOf (DomNode.elem "code".toList "language-py".toList false none
          [DomNode.text "x = 1".toList]).cls)
        (textContent (DomNode.elem "code".toList "language-py".toList false none
          [DomNode.text "x = 1".toList])) <:+:
      extractMarkdownFromElement
        (DomNode.elem "pre".toList [] false none
          [DomNode.elem "code".toList "language-py".toList false none
            [DomNode.text "x = 1".toList]]) :=
  fence_infix_of_path _ _
    (FencePath.here (DomNode.elem "pre".toList [] false none
      [DomNode.elem "code".toList "language-py".toList false none
        [DomNode.text "x = 1".toList]]))
    [] false none
    [DomNode.elem "code".toList "language-py".toList false none
      [DomNode.text "x = 1".toList]]
    rfl (by decide)
    (DomNode.elem "code".toList "language-py".toList false none
      [DomNode.text "x = 1".toList])
    rfl

/-- The `code` child of the counterexample. -/
def codeC9 : DomNode :=
  DomNode.elem "code".toList "language-py".toList false none
    [DomNode.text "x = 1".toList]

/-- The `pre` holding it. -/
def preC9 : DomNode := DomNode.elem "pre".toList [] false none [codeC9]

/-- The same `pre` nested under a pruned `nav` element. -/
def navC9 : DomNode := DomNode.elem "nav".toList [] false none [preC9]

/-- Counterexample to C9 as stated: the subtree `navC9` contains a `pre`
whose code element carries class `language-py`, yet its rendered Markdown is
empty and in particular contains no `py`-tagged fence — the `nav` ancestor is
pruned before the fence is ever emitted. -/
theorem fence_counterexample :
    langOf codeC9.cls = "py".toList
    ∧ extractMarkdownFromElement navC9 = []
    ∧ ¬ (fenceCore "py".toList "x = 1".toList <:+:
        extractMarkdownFromElement navC9) := by
  refine ⟨by decide, by decide, ?_⟩
  intro h
  rw [show extractMarkdownFromElement navC9 = [] from by decide] at h
  have hny := List.eq_nil_of_infix_nil h
  exact absurd hny (by decide)

end AiChat
